import Mathlib

/-!
Formal model of the `dao-template` governance system: a token-weighted
voting ledger (GovernanceToken / ERC20Votes), a proposal registry
(GovernorContract), a delay-enforcing execution gate (TimeLock), and the
owner-gated example target (Box).

The repository ships the GovernanceToken contract, the test-suite, the
deployment modules and the lifecycle scripts; the GovernorContract,
TimeLock and Box contract bodies themselves are not part of the source
tree, so those components are modelled from the specification
(sections 4.1-4.4, 6 and 7), faithful to its words, and checked against
the behaviour the repository's tests and scripts exercise.
-/

namespace DaoTemplate

/-- Error taxonomy of the governance system (spec section 7 plus the
    operation-specific failure names of sections 4.2 and 4.3). -/
inductive GovError where
  | Unauthorized
  | DuplicateProposal
  | AlreadyScheduled
  | DelayTooShort
  | NotActive
  | AlreadyVoted
  | NotReady
  | PredecessorNotDone
  | AlreadyDone
  | TargetCallReverted
  | InvalidQuery
deriving DecidableEq, Repr

/-- Classification of the fine-grained errors into the spec's
    `InvalidState` taxonomy bucket: "operation attempted outside its
    required lifecycle stage — voting outside window, executing before
    ready, executing twice" (spec section 7). -/
def GovError.isInvalidState : GovError → Bool
  | .NotActive => true
  | .NotReady => true
  | .AlreadyDone => true
  | _ => false

/-! ## The governed target (Box)

Modelled from the spec: the Box contract body is not in the source tree.
Spec section 6: "any address exposing an owner-gated mutating entry point
callable with arbitrary encoded arguments"; the tests exercise `store`
(owner-gated), `retrieve`, and Ownable's `transferOwnership`. -/

structure Box where
  owner : Nat
  value : Nat
deriving DecidableEq, Repr

/-- Modelled from the spec: owner-gated mutator of the governed target.
    A call from any account other than the owner fails. -/
def Box.store (b : Box) (caller v : Nat) : Except GovError Box :=
  if caller = b.owner then .ok { b with value := v } else .error .Unauthorized

/-- Modelled from the spec: Ownable ownership transfer, owner-gated. -/
def Box.transferOwnership (b : Box) (caller newOwner : Nat) : Except GovError Box :=
  if caller = b.owner then .ok { b with owner := newOwner } else .error .Unauthorized

/-- An external call into the Box, tagged with its caller. -/
inductive BoxCall where
  | storeCall (caller v : Nat)
  | transferOwnershipCall (caller newOwner : Nat)
deriving DecidableEq, Repr

def BoxCall.caller : BoxCall → Nat
  | .storeCall c _ => c
  | .transferOwnershipCall c _ => c

/-- Run semantics of one Box call: a failed call aborts with no partial
    state change (spec section 7, atomicity). -/
def Box.step (b : Box) (c : BoxCall) : Box :=
  match c with
  | .storeCall caller v =>
      match b.store caller v with
      | .ok b' => b'
      | .error _ => b
  | .transferOwnershipCall caller o =>
      match b.transferOwnership caller o with
      | .ok b' => b'
      | .error _ => b

/-- Run semantics of a sequence of Box calls. -/
def Box.run (b : Box) (cs : List BoxCall) : Box := cs.foldl Box.step b

lemma Box.step_of_ne_owner (b : Box) (c : BoxCall) (h : c.caller ≠ b.owner) :
    b.step c = b := by
  cases c with
  | storeCall caller v =>
      simp only [BoxCall.caller] at h
      simp [Box.step, Box.store, h]
  | transferOwnershipCall caller o =>
      simp only [BoxCall.caller] at h
      simp [Box.step, Box.transferOwnership, h]

lemma Box.run_of_ne_owner (b : Box) (cs : List BoxCall)
    (h : ∀ c ∈ cs, BoxCall.caller c ≠ b.owner) : b.run cs = b := by
  induction cs with
  | nil => rfl
  | cons c cs ih =>
      have hc : BoxCall.caller c ≠ b.owner := h c (List.mem_cons_self c cs)
      have hstep : b.step c = b := Box.step_of_ne_owner b c hc
      simp only [Box.run, List.foldl_cons, hstep]
      exact ih fun c' hc' => h c' (List.mem_cons_of_mem c hc')

/-- C1: once the Box's owner is the TimeLock, no sequence of calls made by
    accounts other than the TimeLock changes the Box at all (in particular
    its stored value), and a direct `store` call from any account other
    than the TimeLock fails with Unauthorized and leaves the Box's state
    unchanged. -/
theorem box_value_changes_only_via_timelock (b : Box) (timelock : Nat)
    (hown : b.owner = timelock) (cs : List BoxCall)
    (hcs : ∀ c ∈ cs, BoxCall.caller c ≠ timelock) :
    b.run cs = b ∧
    ∀ caller v, caller ≠ timelock →
      b.store caller v = .error .Unauthorized ∧
      b.step (.storeCall caller v) = b := by
  constructor
  · exact Box.run_of_ne_owner b cs (by rw [hown]; exact hcs)
  · intro caller v hne
    have h : caller ≠ b.owner := by rw [hown]; exact hne
    refine ⟨?_, Box.step_of_ne_owner b _ h⟩
    simp [Box.store, h]

/-- Witness for C1 at a concrete deployed configuration: Box owned by the
    TimeLock (address 7), an outsider (address 3) tries to store. -/
theorem box_value_changes_only_via_timelock_witness :
    Box.run ⟨7, 0⟩ [BoxCall.storeCall 3 999] = (⟨7, 0⟩ : Box) ∧
    ∀ caller v, caller ≠ 7 →
      Box.store ⟨7, 0⟩ caller v = .error .Unauthorized ∧
      Box.step ⟨7, 0⟩ (.storeCall caller v) = ⟨7, 0⟩ :=
  box_value_changes_only_via_timelock ⟨7, 0⟩ 7 rfl
    [BoxCall.storeCall 3 999] (by decide)

/-! ## Fingerprints

Modelled from the spec: "Fingerprint: deterministic hash identifying a
proposal or scheduled operation from its content" (glossary). The
byte-level keccak hash is replaced by a deterministic injective encoding
into `Nat`, which preserves exactly the properties the spec relies on:
identical inputs give identical fingerprints, and distinct contents give
distinct fingerprints. -/

/-- Injective encoding of a byte-sequence (or any number sequence) into a
    single number, via the pairing function. -/
def encodeList (l : List Nat) : Nat :=
  l.foldr (fun x acc => Nat.pair x acc + 1) 0

lemma encodeList_inj : ∀ l1 l2 : List Nat, encodeList l1 = encodeList l2 → l1 = l2
  | [], [], _ => rfl
  | [], _ :: _, h => by simp [encodeList] at h
  | _ :: _, [], h => by simp [encodeList] at h
  | x :: xs, y :: ys, h => by
      simp only [encodeList, List.foldr_cons, Nat.add_right_cancel_iff] at h
      have h2 := congrArg Nat.unpair h
      simp only [Nat.unpair_pair] at h2
      have hx : x = y := congrArg Prod.fst h2
      have hxs : encodeList xs = encodeList ys := congrArg Prod.snd h2
      exact congrArg₂ List.cons hx (encodeList_inj xs ys hxs)

/-- Modelled from the spec: `hashProposal(targets, values, calldatas,
    descriptionFingerprint)`, the pure proposal-fingerprint derivation
    (spec sections 4.2 and 6). -/
def hashProposal (targets : List Nat) (values : List Nat)
    (calldatas : List (List Nat)) (descriptionHash : Nat) : Nat :=
  Nat.pair (encodeList targets)
    (Nat.pair (encodeList values)
      (Nat.pair (encodeList (calldatas.map encodeList)) descriptionHash))

/-- Modelled from the spec: the scheduled-operation fingerprint, derived
    from {target, value, calldata, predecessor-fingerprint (zero if none),
    salt} (spec section 3, ScheduledOperation). -/
def hashOperation (target value : Nat) (calldata : List Nat)
    (predecessor salt : Nat) : Nat :=
  Nat.pair target
    (Nat.pair value
      (Nat.pair (encodeList calldata) (Nat.pair predecessor salt)))

/-! ## VotingPowerLedger (GovernanceToken + ERC20Votes)

The `GovernanceToken` contract in the source tree mints `s_maxSupply` to
the deployer in its constructor and adds nothing else; its transfer,
delegation and checkpoint behaviour comes from the OpenZeppelin
`ERC20Votes` base, which is a dependency, not part of the source tree.
That behaviour is modelled from spec section 4.1: every transfer updates
the two delegates' voting-power accumulators, `delegate` moves the
caller's full balance's worth of power between accumulators and records
checkpoints at the current block-marker, and `getPastVotes` returns the
latest checkpoint at or before the queried marker.

Accounts are `Fin n`; checkpoints are kept newest-first, so the
"latest checkpoint at or before the marker" query of the spec (section
4.1, realised there by binary search over the ordered sequence) is the
first entry whose marker is at or below the queried one. -/

/-- Source value of `s_maxSupply` in GovernanceToken.sol. -/
def s_maxSupply : Nat := 1000000000000000000000000

structure Ledger (n : Nat) where
  balanceOf : Fin n → Nat
  delegates : Fin n → Option (Fin n)
  votes : Fin n → Nat
  checkpoints : Fin n → List (Nat × Nat)
  supplyCheckpoints : List (Nat × Nat)
  blockNum : Nat

/-- Latest checkpointed value at or before `marker` on a newest-first
    checkpoint list; zero when no checkpoint is that old. -/
def ckLookup : List (Nat × Nat) → Nat → Nat
  | [], _ => 0
  | (m, p) :: rest, marker => if m ≤ marker then p else ckLookup rest marker

/-- Decrement a delegate's voting-power accumulator and record a
    checkpoint at the current block-marker. -/
def Ledger.subVotes (lg : Ledger n) (d : Fin n) (amt : Nat) : Ledger n :=
  { lg with
    votes := Function.update lg.votes d (lg.votes d - amt)
    checkpoints := Function.update lg.checkpoints d
      ((lg.blockNum, lg.votes d - amt) :: lg.checkpoints d) }

/-- Increment a delegate's voting-power accumulator and record a
    checkpoint at the current block-marker. -/
def Ledger.addVotes (lg : Ledger n) (d : Fin n) (amt : Nat) : Ledger n :=
  { lg with
    votes := Function.update lg.votes d (lg.votes d + amt)
    checkpoints := Function.update lg.checkpoints d
      ((lg.blockNum, lg.votes d + amt) :: lg.checkpoints d) }

/-- Move `amt` voting power from the `src` delegate's accumulator to the
    `dst` delegate's accumulator (spec section 4.1); a move between
    identical delegates changes nothing. -/
def Ledger.moveVotes (lg : Ledger n) (src dst : Option (Fin n)) (amt : Nat) :
    Ledger n :=
  if src = dst then lg
  else
    let lg1 := match src with
      | none => lg
      | some d => lg.subVotes d amt
    match dst with
    | none => lg1
    | some d => lg1.addVotes d amt

/-- `delegate(to)`: reassigns the caller's delegate and moves the caller's
    full current balance's worth of power from the old delegate's
    accumulator to the new delegate's accumulator, checkpointing both
    (spec section 4.1). -/
def Ledger.delegate (lg : Ledger n) (caller tgt : Fin n) : Ledger n :=
  let lg1 := { lg with delegates := Function.update lg.delegates caller (some tgt) }
  lg1.moveVotes (lg.delegates caller) (some tgt) (lg.balanceOf caller)

/-- `transfer`: moves balance and updates the two delegates' accumulators
    (spec section 4.1). An insufficient-balance transfer aborts with no
    state change; a self-transfer changes nothing. -/
def Ledger.transfer (lg : Ledger n) (src dst : Fin n) (amt : Nat) : Ledger n :=
  if amt ≤ lg.balanceOf src ∧ src ≠ dst then
    let lg1 := { lg with
      balanceOf := Function.update
        (Function.update lg.balanceOf src (lg.balanceOf src - amt)) dst
        (lg.balanceOf dst + amt) }
    lg1.moveVotes (lg.delegates src) (lg.delegates dst) amt
  else lg

/-- `getVotes(account)`: the current accumulator value (spec section 4.1). -/
def Ledger.getVotes (lg : Ledger n) (a : Fin n) : Nat := lg.votes a

/-- Pure historical lookup underlying `getPastVotes`. -/
def Ledger.pastVotesAt (lg : Ledger n) (a : Fin n) (marker : Nat) : Nat :=
  ckLookup (lg.checkpoints a) marker

/-- `getPastVotes(account, blockMarker)`: fails with InvalidQuery if the
    marker is not strictly in the past (spec section 4.1). -/
def Ledger.getPastVotes (lg : Ledger n) (a : Fin n) (marker : Nat) :
    Except GovError Nat :=
  if marker < lg.blockNum then .ok (lg.pastVotesAt a marker)
  else .error .InvalidQuery

/-- Total token supply: the sum of all balances. -/
def Ledger.totalSupply (lg : Ledger n) : Nat := ∑ i, lg.balanceOf i

/-- Historical total supply at a marker, from the supply checkpoints. -/
def Ledger.pastSupplyAt (lg : Ledger n) (marker : Nat) : Nat :=
  ckLookup lg.supplyCheckpoints marker

/-- Quorum at a snapshot marker: a percentage of the total token supply
    evaluated at that marker (spec section 4.2 and glossary). -/
def Ledger.quorumAt (lg : Ledger n) (pct marker : Nat) : Nat :=
  lg.pastSupplyAt marker * pct / 100

/-- Ledger state right after the GovernanceToken constructor runs at block
    `b0`: the whole supply is minted to the deployer, nobody has
    delegated, every voting-power accumulator is zero (part_008). -/
def initLedger (n : Nat) (deployer : Fin n) (b0 : Nat) : Ledger n :=
  { balanceOf := fun i => if i = deployer then s_maxSupply else 0
    delegates := fun _ => none
    votes := fun _ => 0
    checkpoints := fun _ => []
    supplyCheckpoints := [(b0, s_maxSupply)]
    blockNum := b0 }

/-- An external operation on the ledger. The GovernanceToken contract
    exposes no mint or burn entry point beyond its constructor, so none is
    modelled. `mine` advances the block-marker. -/
inductive LOp (n : Nat) where
  | transferOp (src dst : Fin n) (amt : Nat)
  | delegateOp (caller tgt : Fin n)
  | mine

def Ledger.applyOp (lg : Ledger n) : LOp n → Ledger n
  | .transferOp src dst amt => lg.transfer src dst amt
  | .delegateOp caller tgt => lg.delegate caller tgt
  | .mine => { lg with blockNum := lg.blockNum + 1 }

def Ledger.applyOps (lg : Ledger n) (ops : List (LOp n)) : Ledger n :=
  ops.foldl Ledger.applyOp lg

/-! ## ProposalRegistry (GovernorContract)

Modelled from the spec: the GovernorContract body is not in the source
tree; `propose`, `castVote` and the pure `state` derivation follow spec
section 4.2, with the failure taxonomy of section 7. -/

structure Proposal (n : Nat) where
  proposer : Fin n
  voteStart : Nat
  voteEnd : Nat
  againstVotes : Nat
  forVotes : Nat
  abstainVotes : Nat
  executed : Bool
  canceled : Bool
  voters : List (Fin n)
deriving DecidableEq, Repr

abbrev Registry (n : Nat) := List (Nat × Proposal n)

/-- Governance parameters fixed at deployment (GovernorModule.ts /
    the test-suite: votingDelay 1, votingPeriod 5, quorum 4%). -/
structure GovParams where
  votingDelay : Nat
  votingPeriod : Nat
  proposalThreshold : Nat
  quorumPct : Nat
deriving DecidableEq, Repr

def lookupReg : Registry n → Nat → Option (Proposal n)
  | [], _ => none
  | (k, p) :: rest, pid => if k = pid then some p else lookupReg rest pid

def updateReg (f : Proposal n → Proposal n) : Registry n → Nat → Registry n
  | [], _ => []
  | (k, p) :: rest, pid =>
      if k = pid then (k, f p) :: rest else (k, p) :: updateReg f rest pid

/-- The freshly stored proposal record: empty tallies, no voters, window
    [now + votingDelay, now + votingDelay + votingPeriod] (spec 4.2). -/
def newProposal (P : GovParams) (lg : Ledger n) (proposer : Fin n) :
    Proposal n :=
  { proposer := proposer
    voteStart := lg.blockNum + P.votingDelay
    voteEnd := lg.blockNum + P.votingDelay + P.votingPeriod
    againstVotes := 0
    forVotes := 0
    abstainVotes := 0
    executed := false
    canceled := false
    voters := [] }

/-- Modelled from the spec: `propose` fails with Unauthorized if the
    proposer's voting power at block-marker (current − 1) is below the
    proposal threshold; fails with DuplicateProposal if the derived
    fingerprint already exists; otherwise records the proposal with
    vote-start = now + votingDelay and vote-end = vote-start +
    votingPeriod (spec section 4.2). -/
def propose (P : GovParams) (lg : Ledger n) (reg : Registry n)
    (proposer : Fin n) (targets values : List Nat)
    (calldatas : List (List Nat)) (descriptionHash : Nat) :
    Except GovError (Registry n × Nat) :=
  match lg.getPastVotes proposer (lg.blockNum - 1) with
  | .error e => .error e
  | .ok pv =>
    if pv < P.proposalThreshold then .error .Unauthorized
    else
      match lookupReg reg (hashProposal targets values calldatas descriptionHash) with
      | some _ => .error .DuplicateProposal
      | none =>
          .ok ((hashProposal targets values calldatas descriptionHash,
                  newProposal P lg proposer) :: reg,
               hashProposal targets values calldatas descriptionHash)

/-- Run semantics of `propose`: a failed call aborts with no partial state
    change (spec section 7) and reports its taxonomy reason. -/
def proposeRun (P : GovParams) (lg : Ledger n) (reg : Registry n)
    (proposer : Fin n) (targets values : List Nat)
    (calldatas : List (List Nat)) (descriptionHash : Nat) :
    Registry n × Option GovError :=
  match propose P lg reg proposer targets values calldatas descriptionHash with
  | .ok (reg', _) => (reg', none)
  | .error e => (reg, some e)

/-- Add `weight` to the bucket selected by `support`
    (Against = 0, For = 1, Abstain = 2) and mark the voter as voted. -/
def Proposal.addVote (p : Proposal n) (voter : Fin n) (support : Fin 3)
    (weight : Nat) : Proposal n :=
  { p with
    againstVotes := p.againstVotes + (if support = 0 then weight else 0)
    forVotes := p.forVotes + (if support = 1 then weight else 0)
    abstainVotes := p.abstainVotes + (if support = 2 then weight else 0)
    voters := voter :: p.voters }

/-- Modelled from the spec: `castVote` fails with NotActive unless the
    current block-marker is within [vote-start, vote-end]; fails with
    AlreadyVoted if the caller already voted on this fingerprint; else
    looks up the caller's power at (vote-start − 1), the snapshot block,
    and adds it to the chosen bucket (spec section 4.2). A fingerprint
    with no recorded proposal has no voting window, hence NotActive. -/
def castVote (lg : Ledger n) (reg : Registry n) (voter : Fin n) (pid : Nat)
    (support : Fin 3) : Except GovError (Registry n) :=
  match lookupReg reg pid with
  | none => .error .NotActive
  | some p =>
    if lg.blockNum < p.voteStart ∨ p.voteEnd < lg.blockNum then
      .error .NotActive
    else if voter ∈ p.voters then .error .AlreadyVoted
    else
      match lg.getPastVotes voter (p.voteStart - 1) with
      | .error e => .error e
      | .ok w => .ok (updateReg (fun q => q.addVote voter support w) reg pid)

/-- Run semantics of `castVote`: a failed call leaves the registry (and so
    every tally) unchanged and reports its taxonomy reason. -/
def castVoteRun (lg : Ledger n) (reg : Registry n) (voter : Fin n)
    (pid : Nat) (support : Fin 3) : Registry n × Option GovError :=
  match castVote lg reg voter pid support with
  | .ok reg' => (reg', none)
  | .error e => (reg, some e)

inductive ProposalState where
  | Pending
  | Active
  | Canceled
  | Defeated
  | Succeeded
  | Queued
  | Expired
  | Executed
deriving DecidableEq, Repr

/-- Total votes cast on a proposal: for + against + abstain (glossary). -/
def Proposal.totalVotes (p : Proposal n) : Nat :=
  p.forVotes + p.againstVotes + p.abstainVotes

/-- Modelled from the spec: the pure `state` derivation of section 4.2,
    computed fresh from stored facts. The canceled and executed flags are
    terminal; then Pending before vote-start, Active through vote-end,
    Defeated when outvoted or under quorum, then Queued (still Expired
    once the policy grace period lapses) while a corresponding scheduled
    operation is pending, else Succeeded. `quorumSnap` is the quorum
    evaluated at the proposal's snapshot block-marker. -/
def Proposal.stateOf (p : Proposal n) (quorumSnap : Nat)
    (queuedPending graceLapsed : Bool) (now : Nat) : ProposalState :=
  if p.canceled then .Canceled
  else if p.executed then .Executed
  else if now < p.voteStart then .Pending
  else if now ≤ p.voteEnd then .Active
  else if p.forVotes ≤ p.againstVotes ∨ p.totalVotes < quorumSnap then
    .Defeated
  else if queuedPending then (if graceLapsed then .Expired else .Queued)
  else .Succeeded

/-- `state(fingerprint)` at the system level: derives the proposal state
    with the quorum evaluated at the snapshot block-marker
    (vote-start − 1), never at query time (spec sections 4.1 and 4.2). -/
def stateView (P : GovParams) (lg : Ledger n) (reg : Registry n)
    (queuedPending graceLapsed : Bool) (pid : Nat) (now : Nat) :
    Option ProposalState :=
  (lookupReg reg pid).map fun p =>
    p.stateOf (lg.quorumAt P.quorumPct (p.voteStart - 1)) queuedPending
      graceLapsed now

/-! ## ExecutionGate (TimeLock)

Modelled from the spec: the TimeLock contract body is not in the source
tree; `schedule` and `execute` follow spec section 4.3, the role table
follows sections 3 and 4.4. Operations are stored as (fingerprint,
ready-timestamp, done flag); a predecessor fingerprint of zero means
"none". -/

def PROPOSER_ROLE : Nat := 1
def EXECUTOR_ROLE : Nat := 2
def DEFAULT_ADMIN_ROLE : Nat := 0

structure Gate where
  minDelay : Nat
  ops : List (Nat × Nat × Bool)
  roles : List (Nat × Nat)
deriving DecidableEq, Repr

def Gate.hasRole (g : Gate) (role acct : Nat) : Bool :=
  g.roles.any fun pr => pr.1 == role && pr.2 == acct

def lookupOp : List (Nat × Nat × Bool) → Nat → Option (Nat × Bool)
  | [], _ => none
  | (k, r, d) :: rest, i => if k = i then some (r, d) else lookupOp rest i

def Gate.isOperationDone (g : Gate) (i : Nat) : Bool :=
  match lookupOp g.ops i with
  | some (_, d) => d
  | none => false

/-- A predecessor constraint is satisfied when it is zero ("none") or the
    predecessor operation is done (spec sections 3 and 4.3). -/
def Gate.predecessorDone (g : Gate) (predecessor : Nat) : Bool :=
  predecessor == 0 || g.isOperationDone predecessor

/-- Modelled from the spec: `schedule` fails with Unauthorized unless the
    caller holds the scheduling role; fails with AlreadyScheduled if the
    fingerprint exists (pending or done); fails with DelayTooShort if
    delay < configured minimum; stores ready-timestamp = now + delay
    (spec section 4.3). -/
def Gate.schedule (g : Gate) (caller target value : Nat)
    (calldata : List Nat) (predecessor salt delay now : Nat) :
    Except GovError Gate :=
  if g.hasRole PROPOSER_ROLE caller then
    if (lookupOp g.ops (hashOperation target value calldata predecessor salt)).isSome then
      .error .AlreadyScheduled
    else if delay < g.minDelay then .error .DelayTooShort
    else .ok { g with
      ops := (hashOperation target value calldata predecessor salt,
              now + delay, false) :: g.ops }
  else .error .Unauthorized

/-- Mark the operation with fingerprint `i` as done, keeping its
    ready-timestamp. -/
def markDone : List (Nat × Nat × Bool) → Nat → List (Nat × Nat × Bool)
  | [], _ => []
  | (k, r, d) :: rest, i =>
      if k = i then (k, r, true) :: markDone rest i
      else (k, r, d) :: markDone rest i

def Gate.setDone (g : Gate) (i : Nat) : Gate :=
  { g with ops := markDone g.ops i }

/-- Modelled from the spec: `execute` recomputes the fingerprint; fails
    with NotReady if now < ready-timestamp (an unscheduled operation has
    no ready-timestamp and is likewise not ready); fails with
    PredecessorNotDone if a predecessor is set and not done; fails with
    AlreadyDone if already executed; forwards the call and fails with
    TargetCallReverted if the forwarded call fails (`targetOk` false);
    marks the operation done only after the forwarded call succeeds.
    No role is required: anyone may execute once ready (spec section
    4.3). -/
def Gate.execute (g : Gate) (target value : Nat) (calldata : List Nat)
    (predecessor salt now : Nat) (targetOk : Bool) : Except GovError Gate :=
  match lookupOp g.ops (hashOperation target value calldata predecessor salt) with
  | none => .error .NotReady
  | some (ready, done) =>
    if now < ready then .error .NotReady
    else if g.predecessorDone predecessor then
      if done then .error .AlreadyDone
      else if targetOk then
        .ok (g.setDone (hashOperation target value calldata predecessor salt))
      else .error .TargetCallReverted
    else .error .PredecessorNotDone

/-- Run semantics of `execute`: a failed call leaves the gate unchanged
    and reports its taxonomy reason. -/
def Gate.executeRun (g : Gate) (target value : Nat) (calldata : List Nat)
    (predecessor salt now : Nat) (targetOk : Bool) :
    Gate × Option GovError :=
  match g.execute target value calldata predecessor salt now targetOk with
  | .ok g' => (g', none)
  | .error e => (g, some e)

/-- An external call into the gate (spec sections 4.3 and 4.4): schedule,
    execute, and the role-administration entry points, which are gated on
    the admin role. -/
inductive GateCall where
  | scheduleCall (caller target value : Nat) (calldata : List Nat)
      (predecessor salt delay : Nat)
  | executeCall (target value : Nat) (calldata : List Nat)
      (predecessor salt : Nat) (targetOk : Bool)
  | grantRoleCall (caller role acct : Nat)
  | revokeRoleCall (caller role acct : Nat)

/-- Run semantics of one gate call at time `now`: failed calls abort with
    no partial state change (spec section 7). -/
def Gate.step (g : Gate) (now : Nat) (c : GateCall) : Gate :=
  match c with
  | .scheduleCall caller target value calldata predecessor salt delay =>
      match g.schedule caller target value calldata predecessor salt delay now with
      | .ok g' => g'
      | .error _ => g
  | .executeCall target value calldata predecessor salt targetOk =>
      match g.execute target value calldata predecessor salt now targetOk with
      | .ok g' => g'
      | .error _ => g
  | .grantRoleCall caller role acct =>
      if g.hasRole DEFAULT_ADMIN_ROLE caller then
        { g with roles := (role, acct) :: g.roles }
      else g
  | .revokeRoleCall caller role acct =>
      if g.hasRole DEFAULT_ADMIN_ROLE caller then
        { g with roles := g.roles.filter fun pr => !(pr.1 == role && pr.2 == acct) }
      else g

/-- Run semantics of a time-annotated sequence of gate calls. -/
def Gate.run (g : Gate) (cs : List (Nat × GateCall)) : Gate :=
  cs.foldl (fun g' tc => g'.step tc.1 tc.2) g

/-! ## Ledger lemmas -/

lemma ckLookup_cons_of_gt (m p s : Nat) (l : List (Nat × Nat)) (h : s < m) :
    ckLookup ((m, p) :: l) s = ckLookup l s := by
  simp [ckLookup, Nat.not_le.mpr h]

lemma Ledger.subVotes_balanceOf (lg : Ledger n) (d : Fin n) (amt : Nat) :
    (lg.subVotes d amt).balanceOf = lg.balanceOf := rfl

lemma Ledger.subVotes_delegates (lg : Ledger n) (d : Fin n) (amt : Nat) :
    (lg.subVotes d amt).delegates = lg.delegates := rfl

lemma Ledger.subVotes_blockNum (lg : Ledger n) (d : Fin n) (amt : Nat) :
    (lg.subVotes d amt).blockNum = lg.blockNum := rfl

lemma Ledger.subVotes_supply (lg : Ledger n) (d : Fin n) (amt : Nat) :
    (lg.subVotes d amt).supplyCheckpoints = lg.supplyCheckpoints := rfl

lemma Ledger.addVotes_balanceOf (lg : Ledger n) (d : Fin n) (amt : Nat) :
    (lg.addVotes d amt).balanceOf = lg.balanceOf := rfl

lemma Ledger.addVotes_delegates (lg : Ledger n) (d : Fin n) (amt : Nat) :
    (lg.addVotes d amt).delegates = lg.delegates := rfl

lemma Ledger.addVotes_blockNum (lg : Ledger n) (d : Fin n) (amt : Nat) :
    (lg.addVotes d amt).blockNum = lg.blockNum := rfl

lemma Ledger.addVotes_supply (lg : Ledger n) (d : Fin n) (amt : Nat) :
    (lg.addVotes d amt).supplyCheckpoints = lg.supplyCheckpoints := rfl

lemma Ledger.subVotes_votes_ne (lg : Ledger n) (d a : Fin n) (amt : Nat)
    (h : a ≠ d) : (lg.subVotes d amt).votes a = lg.votes a := by
  simp [Ledger.subVotes, Function.update_noteq h]

lemma Ledger.addVotes_votes_ne (lg : Ledger n) (d a : Fin n) (amt : Nat)
    (h : a ≠ d) : (lg.addVotes d amt).votes a = lg.votes a := by
  simp [Ledger.addVotes, Function.update_noteq h]

lemma Ledger.addVotes_votes_self (lg : Ledger n) (d : Fin n) (amt : Nat) :
    (lg.addVotes d amt).votes d = lg.votes d + amt := by
  simp [Ledger.addVotes]

lemma Ledger.subVotes_checkpoints_ne (lg : Ledger n) (d a : Fin n) (amt : Nat)
    (h : a ≠ d) : (lg.subVotes d amt).checkpoints a = lg.checkpoints a := by
  simp [Ledger.subVotes, Function.update_noteq h]

lemma Ledger.addVotes_checkpoints_ne (lg : Ledger n) (d a : Fin n) (amt : Nat)
    (h : a ≠ d) : (lg.addVotes d amt).checkpoints a = lg.checkpoints a := by
  simp [Ledger.addVotes, Function.update_noteq h]

lemma Ledger.subVotes_pastVotesAt (lg : Ledger n) (d a : Fin n) (amt s : Nat)
    (hs : s < lg.blockNum) :
    (lg.subVotes d amt).pastVotesAt a s = lg.pastVotesAt a s := by
  by_cases h : a = d
  · subst h
    simp [Ledger.pastVotesAt, Ledger.subVotes, ckLookup_cons_of_gt _ _ _ _ hs]
  · simp [Ledger.pastVotesAt, Ledger.subVotes_checkpoints_ne lg d a amt h]

lemma Ledger.addVotes_pastVotesAt (lg : Ledger n) (d a : Fin n) (amt s : Nat)
    (hs : s < lg.blockNum) :
    (lg.addVotes d amt).pastVotesAt a s = lg.pastVotesAt a s := by
  by_cases h : a = d
  · subst h
    simp [Ledger.pastVotesAt, Ledger.addVotes, ckLookup_cons_of_gt _ _ _ _ hs]
  · simp [Ledger.pastVotesAt, Ledger.addVotes_checkpoints_ne lg d a amt h]

lemma Ledger.moveVotes_balanceOf (lg : Ledger n) (src dst : Option (Fin n))
    (amt : Nat) : (lg.moveVotes src dst amt).balanceOf = lg.balanceOf := by
  unfold Ledger.moveVotes
  split
  · rfl
  · cases src <;> cases dst <;> rfl

lemma Ledger.moveVotes_delegates (lg : Ledger n) (src dst : Option (Fin n))
    (amt : Nat) : (lg.moveVotes src dst amt).delegates = lg.delegates := by
  unfold Ledger.moveVotes
  split
  · rfl
  · cases src <;> cases dst <;> rfl

lemma Ledger.moveVotes_blockNum (lg : Ledger n) (src dst : Option (Fin n))
    (amt : Nat) : (lg.moveVotes src dst amt).blockNum = lg.blockNum := by
  unfold Ledger.moveVotes
  split
  · rfl
  · cases src <;> cases dst <;> rfl

lemma Ledger.moveVotes_supply (lg : Ledger n) (src dst : Option (Fin n))
    (amt : Nat) :
    (lg.moveVotes src dst amt).supplyCheckpoints = lg.supplyCheckpoints := by
  unfold Ledger.moveVotes
  split
  · rfl
  · cases src <;> cases dst <;> rfl

lemma Ledger.moveVotes_votes_ne (lg : Ledger n) (src dst : Option (Fin n))
    (amt : Nat) (a : Fin n) (hs : src ≠ some a) (hd : dst ≠ some a) :
    (lg.moveVotes src dst amt).votes a = lg.votes a := by
  unfold Ledger.moveVotes
  split
  · rfl
  · cases src with
    | none =>
        cases dst with
        | none => rfl
        | some d => exact lg.addVotes_votes_ne d a amt fun h => hd (h ▸ rfl)
    | some c =>
        cases dst with
        | none => exact lg.subVotes_votes_ne c a amt fun h => hs (h ▸ rfl)
        | some d =>
            rw [Ledger.addVotes_votes_ne _ d a amt fun h => hd (h ▸ rfl)]
            exact lg.subVotes_votes_ne c a amt fun h => hs (h ▸ rfl)

lemma Ledger.moveVotes_votes_dst (lg : Ledger n) (src : Option (Fin n))
    (a : Fin n) (amt : Nat) (hs : src ≠ some a) :
    (lg.moveVotes src (some a) amt).votes a = lg.votes a + amt := by
  unfold Ledger.moveVotes
  rw [if_neg (by simpa using hs)]
  cases src with
  | none => exact lg.addVotes_votes_self a amt
  | some c =>
      rw [Ledger.addVotes_votes_self]
      rw [lg.subVotes_votes_ne c a amt fun h => hs (h ▸ rfl)]

lemma Ledger.moveVotes_pastVotesAt (lg : Ledger n) (src dst : Option (Fin n))
    (amt : Nat) (a : Fin n) (s : Nat) (hs : s < lg.blockNum) :
    (lg.moveVotes src dst amt).pastVotesAt a s = lg.pastVotesAt a s := by
  unfold Ledger.moveVotes
  split
  · rfl
  · cases src with
    | none =>
        cases dst with
        | none => rfl
        | some d => exact lg.addVotes_pastVotesAt d a amt s hs
    | some c =>
        cases dst with
        | none => exact lg.subVotes_pastVotesAt c a amt s hs
        | some d =>
            rw [Ledger.addVotes_pastVotesAt _ d a amt s
              (by rw [lg.subVotes_blockNum]; exact hs)]
            exact lg.subVotes_pastVotesAt c a amt s hs

lemma sum_update_transfer (f : Fin n → Nat) (src dst : Fin n) (h : src ≠ dst)
    (amt : Nat) (hle : amt ≤ f src) :
    ∑ i, Function.update (Function.update f src (f src - amt)) dst
      (f dst + amt) i = ∑ i, f i := by
  rw [Finset.sum_update_of_mem (Finset.mem_univ dst)]
  have hsrc : src ∈ Finset.univ \ ({dst} : Finset (Fin n)) := by simp [h]
  rw [Finset.sum_update_of_mem hsrc]
  have h1 : ∑ i, f i = f dst + ∑ i in Finset.univ \ {dst}, f i := by
    rw [Finset.sum_eq_sum_diff_singleton_add (Finset.mem_univ dst)]
    exact (Nat.add_comm _ _)
  have h2 : ∑ i in Finset.univ \ {dst}, f i
      = f src + ∑ i in (Finset.univ \ {dst}) \ {src}, f i := by
    rw [Finset.sum_eq_sum_diff_singleton_add hsrc]
    exact (Nat.add_comm _ _)
  omega

lemma Ledger.transfer_totalSupply (lg : Ledger n) (src dst : Fin n)
    (amt : Nat) : (lg.transfer src dst amt).totalSupply = lg.totalSupply := by
  unfold Ledger.transfer
  split
  case isTrue h =>
    simp only [Ledger.totalSupply, Ledger.moveVotes_balanceOf]
    exact sum_update_transfer lg.balanceOf src dst h.2 amt h.1
  case isFalse => rfl

lemma Ledger.delegate_totalSupply (lg : Ledger n) (caller tgt : Fin n) :
    (lg.delegate caller tgt).totalSupply = lg.totalSupply := by
  simp only [Ledger.delegate, Ledger.totalSupply, Ledger.moveVotes_balanceOf]

lemma Ledger.applyOp_totalSupply (lg : Ledger n) (op : LOp n) :
    (lg.applyOp op).totalSupply = lg.totalSupply := by
  cases op with
  | transferOp src dst amt => exact lg.transfer_totalSupply src dst amt
  | delegateOp caller tgt => exact lg.delegate_totalSupply caller tgt
  | mine => rfl

lemma Ledger.applyOps_totalSupply (lg : Ledger n) (ops : List (LOp n)) :
    (lg.applyOps ops).totalSupply = lg.totalSupply := by
  induction ops generalizing lg with
  | nil => rfl
  | cons op ops ih =>
      show ((lg.applyOp op).applyOps ops).totalSupply = lg.totalSupply
      rw [ih (lg.applyOp op)]
      exact lg.applyOp_totalSupply op

lemma Ledger.delegate_balanceOf (lg : Ledger n) (caller tgt : Fin n) :
    (lg.delegate caller tgt).balanceOf = lg.balanceOf := by
  simp only [Ledger.delegate, Ledger.moveVotes_balanceOf]

lemma Ledger.delegate_blockNum (lg : Ledger n) (caller tgt : Fin n) :
    (lg.delegate caller tgt).blockNum = lg.blockNum := by
  simp only [Ledger.delegate, Ledger.moveVotes_blockNum]

lemma Ledger.transfer_blockNum (lg : Ledger n) (src dst : Fin n) (amt : Nat) :
    (lg.transfer src dst amt).blockNum = lg.blockNum := by
  unfold Ledger.transfer
  split
  · simp only [Ledger.moveVotes_blockNum]
  · rfl

lemma Ledger.delegate_pastVotesAt (lg : Ledger n) (caller tgt a : Fin n)
    (s : Nat) (hs : s < lg.blockNum) :
    (lg.delegate caller tgt).pastVotesAt a s = lg.pastVotesAt a s := by
  simp only [Ledger.delegate]
  exact Ledger.moveVotes_pastVotesAt _ _ _ _ a s hs

lemma Ledger.transfer_pastVotesAt (lg : Ledger n) (src dst a : Fin n)
    (amt s : Nat) (hs : s < lg.blockNum) :
    (lg.transfer src dst amt).pastVotesAt a s = lg.pastVotesAt a s := by
  unfold Ledger.transfer
  split
  · exact Ledger.moveVotes_pastVotesAt _ _ _ _ a s hs
  · rfl

lemma Ledger.delegate_supply (lg : Ledger n) (caller tgt : Fin n) :
    (lg.delegate caller tgt).supplyCheckpoints = lg.supplyCheckpoints := by
  simp only [Ledger.delegate, Ledger.moveVotes_supply]

lemma Ledger.transfer_supply (lg : Ledger n) (src dst : Fin n) (amt : Nat) :
    (lg.transfer src dst amt).supplyCheckpoints = lg.supplyCheckpoints := by
  unfold Ledger.transfer
  split
  · simp only [Ledger.moveVotes_supply]
  · rfl

/-- One ledger operation leaves every historical voting-power lookup and
    the historical supply lookup at a strictly past marker unchanged, and
    never moves the block-marker backwards. -/
lemma Ledger.applyOp_past (lg : Ledger n) (op : LOp n) (a : Fin n) (s : Nat)
    (hs : s < lg.blockNum) :
    (lg.applyOp op).pastVotesAt a s = lg.pastVotesAt a s ∧
    (lg.applyOp op).pastSupplyAt s = lg.pastSupplyAt s ∧
    s < (lg.applyOp op).blockNum := by
  cases op with
  | transferOp src dst amt =>
      simp only [Ledger.applyOp]
      refine ⟨lg.transfer_pastVotesAt src dst a amt s hs, ?_, ?_⟩
      · simp [Ledger.pastSupplyAt, Ledger.transfer_supply]
      · rw [Ledger.transfer_blockNum]; exact hs
  | delegateOp caller tgt =>
      simp only [Ledger.applyOp]
      refine ⟨lg.delegate_pastVotesAt caller tgt a s hs, ?_, ?_⟩
      · simp [Ledger.pastSupplyAt, Ledger.delegate_supply]
      · rw [Ledger.delegate_blockNum]; exact hs
  | mine => exact ⟨rfl, rfl, Nat.lt_succ_of_lt hs⟩

/-- A whole sequence of ledger operations run strictly after a snapshot
    marker leaves every historical lookup at that marker unchanged. -/
lemma Ledger.applyOps_past (lg : Ledger n) (ops : List (LOp n)) (a : Fin n)
    (s : Nat) (hs : s < lg.blockNum) :
    (lg.applyOps ops).pastVotesAt a s = lg.pastVotesAt a s ∧
    (lg.applyOps ops).pastSupplyAt s = lg.pastSupplyAt s ∧
    s < (lg.applyOps ops).blockNum := by
  induction ops generalizing lg with
  | nil => exact ⟨rfl, rfl, hs⟩
  | cons op ops ih =>
      obtain ⟨h1, h2, h3⟩ := lg.applyOp_past op a s hs
      obtain ⟨g1, g2, g3⟩ := ih (lg.applyOp op) h3
      exact ⟨g1.trans h1, g2.trans h2, g3⟩

lemma Ledger.moveVotes_checkpoints_ne (lg : Ledger n) (src dst : Option (Fin n))
    (amt : Nat) (a : Fin n) (hs : src ≠ some a) (hd : dst ≠ some a) :
    (lg.moveVotes src dst amt).checkpoints a = lg.checkpoints a := by
  unfold Ledger.moveVotes
  split
  · rfl
  · cases src with
    | none =>
        cases dst with
        | none => rfl
        | some d => exact lg.addVotes_checkpoints_ne d a amt fun h => hd (h ▸ rfl)
    | some c =>
        cases dst with
        | none => exact lg.subVotes_checkpoints_ne c a amt fun h => hs (h ▸ rfl)
        | some d =>
            rw [Ledger.addVotes_checkpoints_ne _ d a amt fun h => hd (h ▸ rfl)]
            exact lg.subVotes_checkpoints_ne c a amt fun h => hs (h ▸ rfl)

lemma Ledger.applyOp_supply (lg : Ledger n) (op : LOp n) :
    (lg.applyOp op).supplyCheckpoints = lg.supplyCheckpoints := by
  cases op with
  | transferOp src dst amt => exact lg.transfer_supply src dst amt
  | delegateOp caller tgt => exact lg.delegate_supply caller tgt
  | mine => rfl

lemma Ledger.applyOps_supply (lg : Ledger n) (ops : List (LOp n)) :
    (lg.applyOps ops).supplyCheckpoints = lg.supplyCheckpoints := by
  induction ops generalizing lg with
  | nil => rfl
  | cons op ops ih =>
      show ((lg.applyOp op).applyOps ops).supplyCheckpoints = _
      rw [ih (lg.applyOp op)]
      exact lg.applyOp_supply op

/-- No delegation currently points at `a`: `a`'s voting-power accumulator
    is zero and `a` has no checkpoints. -/
def notDelegatedTo (lg : Ledger n) (a : Fin n) : Prop :=
  (∀ b, lg.delegates b ≠ some a) ∧ lg.votes a = 0 ∧ lg.checkpoints a = []

/-- Whether a ledger operation is a delegation whose target is `a`. -/
def LOp.targetsDelegate (op : LOp n) (a : Fin n) : Bool :=
  match op with
  | .delegateOp _ tgt => decide (tgt = a)
  | _ => false

lemma notDelegatedTo_init (n : Nat) (d a : Fin n) (b0 : Nat) :
    notDelegatedTo (initLedger n d b0) a :=
  ⟨fun _ => by simp [initLedger], rfl, rfl⟩

lemma notDelegatedTo_applyOp (lg : Ledger n) (a : Fin n) (op : LOp n)
    (hinv : notDelegatedTo lg a) (hop : op.targetsDelegate a = false) :
    notDelegatedTo (lg.applyOp op) a := by
  obtain ⟨hdel, hv, hck⟩ := hinv
  cases op with
  | mine => exact ⟨hdel, hv, hck⟩
  | delegateOp caller tgt =>
      have htgt : tgt ≠ a := by simpa [LOp.targetsDelegate] using hop
      simp only [Ledger.applyOp, Ledger.delegate]
      refine ⟨?_, ?_, ?_⟩
      · intro b
        rw [Ledger.moveVotes_delegates]
        show Function.update lg.delegates caller (some tgt) b ≠ some a
        by_cases hb : b = caller
        · subst hb
          rw [Function.update_same]
          exact fun h => htgt (Option.some.inj h)
        · rw [Function.update_noteq hb]
          exact hdel b
      · rw [Ledger.moveVotes_votes_ne _ _ _ _ a (hdel caller)
          (fun h => htgt (Option.some.inj h))]
        exact hv
      · rw [Ledger.moveVotes_checkpoints_ne _ _ _ _ a (hdel caller)
          (fun h => htgt (Option.some.inj h))]
        exact hck
  | transferOp src dst amt =>
      simp only [Ledger.applyOp]
      unfold Ledger.transfer
      split
      · refine ⟨?_, ?_, ?_⟩
        · intro b
          rw [Ledger.moveVotes_delegates]
          exact hdel b
        · rw [Ledger.moveVotes_votes_ne _ _ _ _ a (hdel src) (hdel dst)]
          exact hv
        · rw [Ledger.moveVotes_checkpoints_ne _ _ _ _ a (hdel src) (hdel dst)]
          exact hck
      · exact ⟨hdel, hv, hck⟩

lemma notDelegatedTo_applyOps (lg : Ledger n) (a : Fin n) (ops : List (LOp n))
    (hinv : notDelegatedTo lg a)
    (hops : ∀ op ∈ ops, op.targetsDelegate a = false) :
    notDelegatedTo (lg.applyOps ops) a := by
  induction ops generalizing lg with
  | nil => exact hinv
  | cons op ops ih =>
      show notDelegatedTo ((lg.applyOp op).applyOps ops) a
      exact ih (lg.applyOp op)
        (notDelegatedTo_applyOp lg a op hinv (hops op (List.mem_cons_self op ops)))
        fun op' h' => hops op' (List.mem_cons_of_mem op h')

/-- C10: the token's total supply is fixed at construction. The
    constructor mints exactly `s_maxSupply` = 10^24 units to the deployer;
    the contract exposes no other mint or burn entry point (the operation
    type has only transfer, delegate and block advancement), so in every
    reachable ledger state the total supply equals `s_maxSupply` and the
    quorum denominator (the historical supply lookup) never drifts. -/
theorem totalSupply_fixed_at_construction (d : Fin n) (b0 : Nat)
    (ops : List (LOp n)) (pct m : Nat) :
    ((initLedger n d b0).applyOps ops).totalSupply = s_maxSupply ∧
    (initLedger n d b0).balanceOf d = s_maxSupply ∧
    s_maxSupply = 10 ^ 24 ∧
    ((initLedger n d b0).applyOps ops).quorumAt pct m
      = (initLedger n d b0).quorumAt pct m := by
  refine ⟨?_, by simp [initLedger], by norm_num [s_maxSupply], ?_⟩
  · rw [Ledger.applyOps_totalSupply]
    simp [Ledger.totalSupply, initLedger]
  · simp [Ledger.quorumAt, Ledger.pastSupplyAt, Ledger.applyOps_supply]

/-- C6: the proposal-threshold check, the vote-weight lookup and the
    quorum evaluated at a snapshot marker depend only on the ledger as of
    the snapshot: two runs that differ only in transfers or delegations
    (or block advancement) occurring strictly after the snapshot agree on
    all three. -/
theorem snapshot_determines_outcome (lg : Ledger n) (s : Nat)
    (hs : s < lg.blockNum) (ops1 ops2 : List (LOp n)) (a : Fin n)
    (pct θ : Nat) :
    (lg.applyOps ops1).pastVotesAt a s = (lg.applyOps ops2).pastVotesAt a s ∧
    (lg.applyOps ops1).quorumAt pct s = (lg.applyOps ops2).quorumAt pct s ∧
    (θ ≤ (lg.applyOps ops1).pastVotesAt a s ↔
      θ ≤ (lg.applyOps ops2).pastVotesAt a s) := by
  obtain ⟨h1, h2, _⟩ := lg.applyOps_past ops1 a s hs
  obtain ⟨g1, g2, _⟩ := lg.applyOps_past ops2 a s hs
  refine ⟨h1.trans g1.symm, ?_, by rw [h1, g1]⟩
  simp only [Ledger.quorumAt, Ledger.pastSupplyAt] at h2 g2 ⊢
  rw [h2, g2]

/-- Witness for C6: a post-snapshot delegation does not change the
    snapshot lookups relative to doing nothing at all. -/
theorem snapshot_determines_outcome_witness :
    ((initLedger 2 0 1).applyOps [.delegateOp 0 0]).pastVotesAt 0 0
      = ((initLedger 2 0 1).applyOps []).pastVotesAt 0 0 ∧
    ((initLedger 2 0 1).applyOps [.delegateOp 0 0]).quorumAt 4 0
      = ((initLedger 2 0 1).applyOps []).quorumAt 4 0 ∧
    (1 ≤ ((initLedger 2 0 1).applyOps [.delegateOp 0 0]).pastVotesAt 0 0 ↔
      1 ≤ ((initLedger 2 0 1).applyOps []).pastVotesAt 0 0) :=
  snapshot_determines_outcome (initLedger 2 0 1) 0 (by decide)
    [.delegateOp 0 0] [] 0 4 1

/-- C9 (amended): for every account to which no delegation has ever been
    made, `getVotes` is zero regardless of the account's balance, and
    `getVotes` immediately after self-delegation equals the account's
    current token balance. -/
theorem getVotes_after_self_delegation (d a : Fin n) (b0 : Nat)
    (ops : List (LOp n))
    (hops : ∀ op ∈ ops, op.targetsDelegate a = false) :
    ((initLedger n d b0).applyOps ops).getVotes a = 0 ∧
    (((initLedger n d b0).applyOps ops).delegate a a).getVotes a
      = ((initLedger n d b0).applyOps ops).balanceOf a := by
  obtain ⟨hdel, hv, _⟩ := notDelegatedTo_applyOps (initLedger n d b0) a ops
    (notDelegatedTo_init n d a b0) hops
  refine ⟨hv, ?_⟩
  simp only [Ledger.delegate, Ledger.getVotes]
  rw [Ledger.moveVotes_votes_dst _ _ _ _ (hdel a)]
  show ((initLedger n d b0).applyOps ops).votes a + _ = _
  rw [hv, Nat.zero_add]

/-- Witness for C9 (amended): account 1 holds 5 tokens after a transfer
    but has zero votes until it self-delegates, at which point its votes
    equal its balance. -/
theorem getVotes_after_self_delegation_witness :
    ((initLedger 2 0 1).applyOps [.transferOp 0 1 5, .mine]).getVotes 1 = 0 ∧
    (((initLedger 2 0 1).applyOps [.transferOp 0 1 5, .mine]).delegate 1 1).getVotes 1
      = ((initLedger 2 0 1).applyOps [.transferOp 0 1 5, .mine]).balanceOf 1 :=
  getVotes_after_self_delegation 0 1 1 [.transferOp 0 1 5, .mine] (by decide)

/-- C9 fails as universally stated: in the reachable state where the
    deployer has delegated to account 1, account 1 has itself never
    delegated (its delegate is still unset) yet `getVotes` is nonzero,
    and immediately after account 1 self-delegates its `getVotes` differs
    from its token balance. -/
theorem getVotes_delegation_counterexample :
    ((initLedger 2 0 1).applyOps [.delegateOp 0 1]).delegates 1 = none ∧
    ((initLedger 2 0 1).applyOps [.delegateOp 0 1]).getVotes 1 ≠ 0 ∧
    (((initLedger 2 0 1).applyOps [.delegateOp 0 1]).delegate 1 1).getVotes 1
      ≠ (((initLedger 2 0 1).applyOps [.delegateOp 0 1]).delegate 1 1).balanceOf 1 := by
  refine ⟨?_, by decide, by decide⟩
  decide

/-! ## Registry lemmas -/

lemma lookupReg_updateReg (f : Proposal n → Proposal n) (reg : Registry n)
    (pid : Nat) :
    lookupReg (updateReg f reg pid) pid = (lookupReg reg pid).map f := by
  induction reg with
  | nil => rfl
  | cons kp rest ih =>
      obtain ⟨k, p⟩ := kp
      by_cases hk : k = pid
      · simp [updateReg, lookupReg, hk]
      · simp [updateReg, lookupReg, hk, ih]

lemma propose_ok_shape (P : GovParams) (lg : Ledger n) (reg : Registry n)
    (pr : Fin n) (t v : List Nat) (c : List (List Nat)) (dh : Nat)
    (reg' : Registry n) (pid : Nat)
    (h : propose P lg reg pr t v c dh = .ok (reg', pid)) :
    pid = hashProposal t v c dh ∧
    lookupReg reg pid = none ∧
    reg' = (pid, newProposal P lg pr) :: reg := by
  unfold propose at h
  split at h
  · exact Except.noConfusion h
  · split at h
    · exact Except.noConfusion h
    · split at h
      · exact Except.noConfusion h
      · rename_i heq
        injection h with h1
        have hpid : pid = hashProposal t v c dh := (congrArg Prod.snd h1).symm
        refine ⟨hpid, ?_, ?_⟩
        · rw [hpid]; exact heq
        · rw [hpid]; exact (congrArg Prod.fst h1).symm

lemma castVote_ok_shape (lg : Ledger n) (reg : Registry n) (voter : Fin n)
    (pid : Nat) (s : Fin 3) (reg2 : Registry n)
    (h : castVote lg reg voter pid s = .ok reg2) :
    ∃ w, reg2 = updateReg (fun q => q.addVote voter s w) reg pid := by
  unfold castVote at h
  split at h
  · exact Except.noConfusion h
  · split at h
    · exact Except.noConfusion h
    · split at h
      · exact Except.noConfusion h
      · split at h
        · exact Except.noConfusion h
        · rename_i w heq
          injection h with h1
          exact ⟨w, h1.symm⟩

/-- C4: `hashProposal` is a pure function of {targets, values, calldatas,
    description-fingerprint} — the same tuple always reproduces the stored
    fingerprint — and a second `propose` with an identical tuple fails
    with DuplicateProposal, leaving the registry, in particular the first
    proposal's stored data, unchanged. -/
theorem hashProposal_pure_and_duplicate_rejected (P : GovParams)
    (lg lg' : Ledger n) (reg reg' : Registry n) (pr pr' : Fin n)
    (t v : List Nat) (c : List (List Nat)) (dh : Nat) (pid pv : Nat)
    (hfirst : propose P lg reg pr t v c dh = .ok (reg', pid))
    (hq : lg'.getPastVotes pr' (lg'.blockNum - 1) = .ok pv)
    (hth : P.proposalThreshold ≤ pv) :
    hashProposal t v c dh = pid ∧
    proposeRun P lg' reg' pr' t v c dh = (reg', some .DuplicateProposal) ∧
    lookupReg (proposeRun P lg' reg' pr' t v c dh).1 pid
      = some (newProposal P lg pr) := by
  obtain ⟨hpid, hnone, hreg⟩ :=
    propose_ok_shape P lg reg pr t v c dh reg' pid hfirst
  have hdup : lookupReg reg' (hashProposal t v c dh)
      = some (newProposal P lg pr) := by
    rw [← hpid, hreg]
    simp [lookupReg]
  have hprop : propose P lg' reg' pr' t v c dh = .error .DuplicateProposal := by
    simp only [propose, hq]
    rw [if_neg (Nat.not_lt.mpr hth)]
    simp only [hdup]
  refine ⟨hpid.symm, ?_, ?_⟩
  · unfold proposeRun
    rw [hprop]
  · unfold proposeRun
    rw [hprop]
    show lookupReg reg' pid = _
    rw [hpid]
    exact hdup

/-- C7: once an account has successfully voted on a proposal, a second
    `castVote` by the same account on the same proposal (while voting is
    open) fails with AlreadyVoted, and any `castVote` at a block-marker
    before vote-start or after vote-end fails with NotActive — spec
    section 7 classifies NotActive as an InvalidState failure — and in
    both failure cases the registry, hence the proposal's tally, is
    unchanged. -/
theorem castVote_double_and_window_errors (lg lg' lg0 : Ledger n)
    (reg reg2 : Registry n) (voter v0 : Fin n) (pid : Nat)
    (s1 s2 s0 : Fin 3) (p : Proposal n)
    (hp : lookupReg reg pid = some p)
    (hfirst : castVote lg reg voter pid s1 = .ok reg2)
    (hw1 : p.voteStart ≤ lg'.blockNum) (hw2 : lg'.blockNum ≤ p.voteEnd)
    (hout : lg0.blockNum < p.voteStart ∨ p.voteEnd < lg0.blockNum) :
    castVoteRun lg' reg2 voter pid s2 = (reg2, some .AlreadyVoted) ∧
    castVoteRun lg0 reg v0 pid s0 = (reg, some .NotActive) ∧
    GovError.NotActive.isInvalidState = true := by
  obtain ⟨w, hreg2⟩ := castVote_ok_shape lg reg voter pid s1 reg2 hfirst
  have hlook : lookupReg reg2 pid = some (p.addVote voter s1 w) := by
    rw [hreg2, lookupReg_updateReg, hp]
    rfl
  have hcond : ¬(lg'.blockNum < (p.addVote voter s1 w).voteStart ∨
      (p.addVote voter s1 w).voteEnd < lg'.blockNum) := by
    show ¬(lg'.blockNum < p.voteStart ∨ p.voteEnd < lg'.blockNum)
    omega
  have hmem : voter ∈ (p.addVote voter s1 w).voters :=
    List.mem_cons_self voter p.voters
  have hcv : castVote lg' reg2 voter pid s2 = .error .AlreadyVoted := by
    simp only [castVote, hlook]
    rw [if_neg hcond, if_pos hmem]
  have hcv0 : castVote lg0 reg v0 pid s0 = .error .NotActive := by
    simp only [castVote, hp]
    rw [if_pos hout]
  refine ⟨?_, ?_, rfl⟩
  · unfold castVoteRun
    rw [hcv]
  · unfold castVoteRun
    rw [hcv0]

/-- C8 (amended): `propose` fails with Unauthorized, recording nothing,
    whenever the proposer's voting power at block-marker (current − 1) is
    below the proposal threshold; in particular, with a positive
    threshold it fails for any account to which no delegation has ever
    been made (and which therefore has never self-delegated), regardless
    of that account's token balance. -/
theorem propose_below_threshold_unauthorized (P : GovParams)
    (lg : Ledger n) (reg reg0 : Registry n) (proposer : Fin n)
    (t v : List Nat) (c : List (List Nat)) (dh : Nat) (pv : Nat)
    (hq : lg.getPastVotes proposer (lg.blockNum - 1) = .ok pv)
    (hlt : pv < P.proposalThreshold)
    (d a : Fin n) (b0 : Nat) (ops : List (LOp n))
    (hops : ∀ op ∈ ops, op.targetsDelegate a = false)
    (hb0 : 1 ≤ b0) (hth : 0 < P.proposalThreshold) :
    proposeRun P lg reg proposer t v c dh = (reg, some .Unauthorized) ∧
    proposeRun P ((initLedger n d b0).applyOps ops) reg0 a t v c dh
      = (reg0, some .Unauthorized) := by
  constructor
  · have hprop : propose P lg reg proposer t v c dh = .error .Unauthorized := by
      simp only [propose, hq]
      rw [if_pos hlt]
    unfold proposeRun
    rw [hprop]
  · obtain ⟨_, _, hck⟩ := notDelegatedTo_applyOps (initLedger n d b0) a ops
      (notDelegatedTo_init n d a b0) hops
    have h3 := ((initLedger n d b0).applyOps_past ops a (b0 - 1)
      (show b0 - 1 < b0 by omega)).2.2
    have hpv : ((initLedger n d b0).applyOps ops).getPastVotes a
        (((initLedger n d b0).applyOps ops).blockNum - 1) = .ok 0 := by
      unfold Ledger.getPastVotes
      rw [if_pos (by omega)]
      unfold Ledger.pastVotesAt
      rw [hck]
      rfl
    have hprop : propose P ((initLedger n d b0).applyOps ops) reg0 a t v c dh
        = .error .Unauthorized := by
      simp only [propose, hpv]
      rw [if_pos hth]
    unfold proposeRun
    rw [hprop]

/-- C8 fails in its "in particular" part as stated: account 1 has never
    delegated (its delegate is still unset), yet after the deployer
    delegates to it, its `propose` does not fail — with a positive
    threshold the power received from others suffices. -/
theorem propose_never_delegated_counterexample :
    ((initLedger 2 0 1).applyOps [.delegateOp 0 1, .mine]).delegates 1
      = none ∧
    (propose ⟨1, 5, 1, 4⟩
      ((initLedger 2 0 1).applyOps [.delegateOp 0 1, .mine])
      [] 1 [5] [0] [[]] 9).isOk = true := by
  refine ⟨?_, by decide⟩
  decide

/-- C3: strictly after vote-end, with the proposal not canceled, not
    queued and not executed, `state` returns Defeated exactly when
    for-votes ≤ against-votes or total votes fall below the quorum
    evaluated at the proposal's snapshot (vote-start − 1), and returns
    Succeeded exactly when for-votes > against-votes and total votes meet
    that quorum. -/
theorem state_defeated_succeeded_iff (P : GovParams) (lg : Ledger n)
    (reg : Registry n) (pid : Nat) (p : Proposal n) (now : Nat)
    (graceLapsed : Bool)
    (hp : lookupReg reg pid = some p)
    (hc : p.canceled = false) (he : p.executed = false)
    (hse : p.voteStart ≤ p.voteEnd) (hn : p.voteEnd < now) :
    (stateView P lg reg false graceLapsed pid now = some .Defeated ↔
      (p.forVotes ≤ p.againstVotes ∨
        p.totalVotes < lg.quorumAt P.quorumPct (p.voteStart - 1))) ∧
    (stateView P lg reg false graceLapsed pid now = some .Succeeded ↔
      (p.againstVotes < p.forVotes ∧
        lg.quorumAt P.quorumPct (p.voteStart - 1) ≤ p.totalVotes)) := by
  have htv : p.totalVotes = p.forVotes + p.againstVotes + p.abstainVotes := rfl
  have hview : stateView P lg reg false graceLapsed pid now
      = some (p.stateOf (lg.quorumAt P.quorumPct (p.voteStart - 1)) false
          graceLapsed now) := by
    simp [stateView, hp]
  by_cases hd : p.forVotes ≤ p.againstVotes ∨
      p.totalVotes < lg.quorumAt P.quorumPct (p.voteStart - 1)
  · have hst : p.stateOf (lg.quorumAt P.quorumPct (p.voteStart - 1)) false
        graceLapsed now = .Defeated := by
      unfold Proposal.stateOf
      rw [if_neg (by simp [hc]), if_neg (by simp [he]),
        if_neg (by omega), if_neg (by omega), if_pos hd]
    rw [hview, hst]
    refine ⟨⟨fun _ => hd, fun _ => rfl⟩, ?_, ?_⟩
    · intro hcontra
      exact absurd hcontra (by simp)
    · intro hcontra
      exfalso
      obtain ⟨h1, h2⟩ := hcontra
      rcases hd with hd1 | hd1 <;> omega
  · have hst : p.stateOf (lg.quorumAt P.quorumPct (p.voteStart - 1)) false
        graceLapsed now = .Succeeded := by
      unfold Proposal.stateOf
      rw [if_neg (by simp [hc]), if_neg (by simp [he]),
        if_neg (by omega), if_neg (by omega), if_neg hd]
      simp
    rw [hview, hst]
    push_neg at hd
    refine ⟨⟨?_, ?_⟩, fun _ => hd, fun _ => rfl⟩
    · intro hcontra
      exact absurd hcontra (by simp)
    · intro hcontra
      exfalso
      rcases hcontra with h1 | h1 <;> omega

/-! ## Concrete lifecycle scenario (two accounts, test-suite parameters)

The deployer self-delegates at block 1, a block is mined, a proposal is
created at block 2 (voting window [3, 8]), another block is mined and the
deployer votes For at block 3 — mirroring the test-suite's flow with
votingDelay 1, votingPeriod 5, quorum 4%. -/

def Pc : GovParams := ⟨1, 5, 1, 4⟩

def lgA : Ledger 2 := ((initLedger 2 0 1).delegate 0 0).applyOps [.mine]

def regA : Registry 2 := (proposeRun Pc lgA [] 0 [5] [0] [[]] 9).1

def pidA : Nat := hashProposal [5] [0] [[]] 9

def lgB : Ledger 2 := lgA.applyOps [.mine]

def regB : Registry 2 := (castVoteRun lgB regA 0 pidA 1).1

/-- Witness for C4: re-proposing the stored tuple at a later block fails
    with DuplicateProposal and the stored proposal survives untouched. -/
theorem hashProposal_pure_and_duplicate_rejected_witness :
    hashProposal [5] [0] [[]] 9 = pidA ∧
    proposeRun Pc lgB regA 0 [5] [0] [[]] 9
      = (regA, some .DuplicateProposal) ∧
    lookupReg (proposeRun Pc lgB regA 0 [5] [0] [[]] 9).1 pidA
      = some (newProposal Pc lgA 0) :=
  hashProposal_pure_and_duplicate_rejected Pc lgA lgB [] regA 0 0
    [5] [0] [[]] 9 pidA s_maxSupply rfl rfl (by decide)

/-- Witness for C7: the deployer's second vote at block 3 fails with
    AlreadyVoted; a vote at block 2 (before the window) fails with
    NotActive; neither changes the registry. -/
theorem castVote_double_and_window_errors_witness :
    castVoteRun lgB regB 0 pidA 1 = (regB, some .AlreadyVoted) ∧
    castVoteRun lgA regA 0 pidA 1 = (regA, some .NotActive) ∧
    GovError.NotActive.isInvalidState = true :=
  castVote_double_and_window_errors lgB lgB lgA regA regB 0 0 pidA 1 1 1
    (newProposal Pc lgA 0) (by decide) rfl (by decide) (by decide)
    (by decide)

/-- Witness for C8 (amended): account 1, which never received any
    delegation, cannot propose despite the ledger holding balances. -/
theorem propose_below_threshold_unauthorized_witness :
    proposeRun Pc lgA [] 1 [5] [0] [[]] 9 = ([], some .Unauthorized) ∧
    proposeRun Pc ((initLedger 2 0 1).applyOps [.mine]) [] 1 [5] [0] [[]] 9
      = ([], some .Unauthorized) :=
  propose_below_threshold_unauthorized Pc lgA [] [] 1 [5] [0] [[]] 9 0
    rfl (by decide) 0 1 1 [.mine] (by decide) (by decide) (by decide)

/-- Witness for C3: at block 9, past the window [3, 8], the un-voted
    proposal is Defeated, matching the tally/quorum characterisation. -/
theorem state_defeated_succeeded_iff_witness :
    (stateView Pc lgA regA false false pidA 9 = some .Defeated ↔
      ((newProposal Pc lgA 0).forVotes ≤ (newProposal Pc lgA 0).againstVotes ∨
        (newProposal Pc lgA 0).totalVotes
          < lgA.quorumAt Pc.quorumPct ((newProposal Pc lgA 0).voteStart - 1))) ∧
    (stateView Pc lgA regA false false pidA 9 = some .Succeeded ↔
      ((newProposal Pc lgA 0).againstVotes < (newProposal Pc lgA 0).forVotes ∧
        lgA.quorumAt Pc.quorumPct ((newProposal Pc lgA 0).voteStart - 1)
          ≤ (newProposal Pc lgA 0).totalVotes)) :=
  state_defeated_succeeded_iff Pc lgA regA pidA (newProposal Pc lgA 0) 9
    false (by decide) rfl rfl (by decide) (by decide)

/-! ## Gate lemmas -/

lemma lookupOp_markDone_self (l : List (Nat × Nat × Bool)) (i : Nat) :
    lookupOp (markDone l i) i
      = (lookupOp l i).map (fun rd => (rd.1, true)) := by
  induction l with
  | nil => rfl
  | cons e rest ih =>
      obtain ⟨k, r, d⟩ := e
      by_cases hk : k = i
      · simp [markDone, lookupOp, hk]
      · simp [markDone, lookupOp, hk, ih]

lemma lookupOp_markDone_other (l : List (Nat × Nat × Bool)) (i j : Nat)
    (h : j ≠ i) :
    lookupOp (markDone l i) j = lookupOp l j := by
  induction l with
  | nil => rfl
  | cons e rest ih =>
      obtain ⟨k, r, d⟩ := e
      have hij : ¬(i = j) := fun hc => h hc.symm
      by_cases hk : k = i
      · have hkj : ¬(k = j) := fun hc => h (hc.symm.trans hk)
        simp [markDone, lookupOp, hk, hkj, hij, ih]
      · by_cases hkj : k = j <;> simp [markDone, lookupOp, hk, hkj, h, ih]

lemma Gate.lookupOp_setDone_self (g : Gate) (i : Nat) :
    lookupOp (g.setDone i).ops i
      = (lookupOp g.ops i).map (fun rd => (rd.1, true)) :=
  lookupOp_markDone_self g.ops i

lemma Gate.lookupOp_setDone_other (g : Gate) (i j : Nat) (h : j ≠ i) :
    lookupOp (g.setDone i).ops j = lookupOp g.ops j :=
  lookupOp_markDone_other g.ops i j h

lemma Gate.isOperationDone_setDone (g : Gate) (i j : Nat)
    (h : g.isOperationDone j = true) :
    (g.setDone i).isOperationDone j = true := by
  unfold Gate.isOperationDone at h ⊢
  by_cases hj : j = i
  · subst hj
    rw [Gate.lookupOp_setDone_self]
    cases hl : lookupOp g.ops j with
    | none => rw [hl] at h; exact absurd h (by simp)
    | some rd => simp
  · rw [Gate.lookupOp_setDone_other g i j hj]
    exact h

lemma Gate.predecessorDone_setDone (g : Gate) (i pred : Nat)
    (h : g.predecessorDone pred = true) :
    (g.setDone i).predecessorDone pred = true := by
  unfold Gate.predecessorDone at h ⊢
  rcases Bool.or_eq_true_iff.mp h with h0 | h0
  · rw [h0]; rfl
  · rw [g.isOperationDone_setDone i pred h0]
    simp

lemma Gate.execute_ok_shape (g : Gate) (t v : Nat) (c : List Nat)
    (pred salt now : Nat) (tOk : Bool) (g' : Gate)
    (h : g.execute t v c pred salt now tOk = .ok g') :
    ∃ ready,
      lookupOp g.ops (hashOperation t v c pred salt) = some (ready, false) ∧
      ready ≤ now ∧ g.predecessorDone pred = true ∧
      g' = g.setDone (hashOperation t v c pred salt) := by
  unfold Gate.execute at h
  split at h
  · exact Except.noConfusion h
  · rename_i ready done heq
    split at h
    · exact Except.noConfusion h
    · rename_i hnow
      split at h
      · rename_i hpred
        split at h
        · exact Except.noConfusion h
        · rename_i hdone
          split at h
          · injection h with h1
            have hdf : done = false := by simpa using hdone
            rw [hdf] at heq
            exact ⟨ready, heq, Nat.le_of_not_lt hnow, hpred, h1.symm⟩
          · exact Except.noConfusion h
      · exact Except.noConfusion h

lemma Gate.schedule_ok_shape (g : Gate) (caller t v : Nat) (c : List Nat)
    (pred salt delay now : Nat) (g1 : Gate)
    (h : g.schedule caller t v c pred salt delay now = .ok g1) :
    lookupOp g.ops (hashOperation t v c pred salt) = none ∧
    g1 = { g with
      ops := (hashOperation t v c pred salt, now + delay, false) :: g.ops } := by
  unfold Gate.schedule at h
  split at h
  · split at h
    · exact Except.noConfusion h
    · rename_i hnot
      split at h
      · exact Except.noConfusion h
      · injection h with h1
        exact ⟨Option.not_isSome_iff_eq_none.mp hnot, h1.symm⟩
  · exact Except.noConfusion h

lemma Gate.isOperationDone_step (g : Gate) (now : Nat) (call : GateCall)
    (j : Nat) (h : g.isOperationDone j = true) :
    (g.step now call).isOperationDone j = true := by
  cases call with
  | scheduleCall caller t v c pred salt delay =>
      simp only [Gate.step]
      cases hs : g.schedule caller t v c pred salt delay now with
      | error e => exact h
      | ok g1 =>
          obtain ⟨hnone, hg1⟩ := g.schedule_ok_shape caller t v c pred salt
            delay now g1 hs
          have hj : j ≠ hashOperation t v c pred salt := by
            intro hji
            unfold Gate.isOperationDone at h
            rw [hji, hnone] at h
            exact absurd h (by simp)
          unfold Gate.isOperationDone at h ⊢
          rw [hg1]
          have hne : ¬(hashOperation t v c pred salt = j) :=
            fun hc => hj hc.symm
          show (match lookupOp ((hashOperation t v c pred salt,
            now + delay, false) :: g.ops) j with
            | some (_, d) => d
            | none => false) = true
          rw [show lookupOp ((hashOperation t v c pred salt, now + delay,
            false) :: g.ops) j = lookupOp g.ops j by
              simp [lookupOp, hne]]
          exact h
  | executeCall t v c pred salt tOk =>
      simp only [Gate.step]
      cases hs : g.execute t v c pred salt now tOk with
      | error e => exact h
      | ok g1 =>
          obtain ⟨ready, _, _, _, hg1⟩ :=
            g.execute_ok_shape t v c pred salt now tOk g1 hs
          rw [hg1]
          exact g.isOperationDone_setDone _ j h
  | grantRoleCall caller role acct =>
      simp only [Gate.step]
      split
      · exact h
      · exact h
  | revokeRoleCall caller role acct =>
      simp only [Gate.step]
      split
      · exact h
      · exact h

lemma Gate.isOperationDone_run (g : Gate) (cs : List (Nat × GateCall))
    (j : Nat) (h : g.isOperationDone j = true) :
    (g.run cs).isOperationDone j = true := by
  induction cs generalizing g with
  | nil => exact h
  | cons tc cs ih =>
      show ((g.step tc.1 tc.2).run cs).isOperationDone j = true
      exact ih (g.step tc.1 tc.2) (g.isOperationDone_step tc.1 tc.2 j h)

/-- C2: for a scheduled, not yet executed operation, `execute` fails with
    NotReady at every timestamp strictly below the ready-timestamp
    (leaving the gate unchanged), and succeeds — marking the operation
    done — at every timestamp at or above it, provided its predecessor,
    if any, is already done and the forwarded call succeeds. -/
theorem execute_notready_before_ready_after (g : Gate) (t v : Nat)
    (c : List Nat) (pred salt ready : Nat)
    (hop : lookupOp g.ops (hashOperation t v c pred salt)
      = some (ready, false)) :
    (∀ now tOk, now < ready →
      g.executeRun t v c pred salt now tOk = (g, some .NotReady)) ∧
    (∀ now, ready ≤ now → g.predecessorDone pred = true →
      g.executeRun t v c pred salt now true
        = (g.setDone (hashOperation t v c pred salt), none)) := by
  constructor
  · intro now tOk hlt
    have h1 : g.execute t v c pred salt now tOk = .error .NotReady := by
      simp only [Gate.execute, hop]
      rw [if_pos hlt]
    unfold Gate.executeRun
    rw [h1]
  · intro now hge hpred
    have h1 : g.execute t v c pred salt now true
        = .ok (g.setDone (hashOperation t v c pred salt)) := by
      simp only [Gate.execute, hop]
      rw [if_neg (Nat.not_lt.mpr hge), if_pos hpred]
      simp
    unfold Gate.executeRun
    rw [h1]

/-- Witness for C2 on a concrete gate holding one operation with
    ready-timestamp 110: execution at 105 fails NotReady, at 110 it
    succeeds and marks the operation done. -/
theorem execute_notready_before_ready_after_witness :
    Gate.executeRun ⟨10, [(hashOperation 5 0 [] 0 9, 110, false)], []⟩
        5 0 [] 0 9 105 true
      = (⟨10, [(hashOperation 5 0 [] 0 9, 110, false)], []⟩,
         some .NotReady) ∧
    Gate.executeRun ⟨10, [(hashOperation 5 0 [] 0 9, 110, false)], []⟩
        5 0 [] 0 9 110 true
      = (Gate.setDone ⟨10, [(hashOperation 5 0 [] 0 9, 110, false)], []⟩
          (hashOperation 5 0 [] 0 9), none) := by
  have h := execute_notready_before_ready_after
    ⟨10, [(hashOperation 5 0 [] 0 9, 110, false)], []⟩ 5 0 [] 0 9 110
    (by decide)
  exact ⟨h.1 105 true (by decide), h.2 110 (by decide) (by decide)⟩

/-- C5: the done flag is set at most once. After a successful `execute`,
    every further `execute` of the same operation at any later timestamp
    fails with AlreadyDone and leaves the gate unchanged; and across any
    further sequence of gate calls (schedule, execute, role changes), a
    done operation stays done. -/
theorem operation_done_at_most_once (g g' : Gate) (t v : Nat)
    (c : List Nat) (pred salt now : Nat) (tOk : Bool)
    (hexec : g.execute t v c pred salt now tOk = .ok g')
    (now' : Nat) (hnow : now ≤ now') (tOk' : Bool)
    (cs : List (Nat × GateCall)) (j : Nat)
    (hj : g'.isOperationDone j = true) :
    g'.executeRun t v c pred salt now' tOk' = (g', some .AlreadyDone) ∧
    (g'.run cs).isOperationDone j = true := by
  obtain ⟨ready, hop, hrdy, hpred, hg'⟩ :=
    g.execute_ok_shape t v c pred salt now tOk g' hexec
  have hop' : lookupOp g'.ops (hashOperation t v c pred salt)
      = some (ready, true) := by
    rw [hg', Gate.lookupOp_setDone_self, hop]
    rfl
  have hpred' : g'.predecessorDone pred = true := by
    rw [hg']
    exact g.predecessorDone_setDone _ pred hpred
  constructor
  · have h1 : g'.execute t v c pred salt now' tOk' = .error .AlreadyDone := by
      simp only [Gate.execute, hop']
      rw [if_neg (Nat.not_lt.mpr (hrdy.trans hnow)), if_pos hpred']
      simp
    unfold Gate.executeRun
    rw [h1]
  · exact g'.isOperationDone_run cs j hj

/-- Witness for C5: after executing the operation at time 110, a repeat
    at 120 fails AlreadyDone, and the operation is still done after a
    further schedule call goes through the gate. -/
theorem operation_done_at_most_once_witness :
    Gate.executeRun
        (Gate.setDone ⟨10, [(hashOperation 5 0 [] 0 9, 110, false)], []⟩
          (hashOperation 5 0 [] 0 9)) 5 0 [] 0 9 120 true
      = (Gate.setDone ⟨10, [(hashOperation 5 0 [] 0 9, 110, false)], []⟩
          (hashOperation 5 0 [] 0 9), some .AlreadyDone) ∧
    (Gate.run
        (Gate.setDone ⟨10, [(hashOperation 5 0 [] 0 9, 110, false)], []⟩
          (hashOperation 5 0 [] 0 9))
        [(130, .scheduleCall 55 6 0 [] 0 7 15)]).isOperationDone
      (hashOperation 5 0 [] 0 9) = true :=
  operation_done_at_most_once
    ⟨10, [(hashOperation 5 0 [] 0 9, 110, false)], []⟩
    (Gate.setDone ⟨10, [(hashOperation 5 0 [] 0 9, 110, false)], []⟩
      (hashOperation 5 0 [] 0 9))
    5 0 [] 0 9 110 true rfl 120 (by decide) true
    [(130, .scheduleCall 55 6 0 [] 0 7 15)]
    (hashOperation 5 0 [] 0 9) (by decide)

end DaoTemplate
